import Mathlib

/-!
Verification of the `GraylogApi` client (`src/lib/graylogapi.py`).

The embedding is a shallow one: every method of the Python class becomes a
Lean function over an explicit client state (`GraylogApi`), an HTTP oracle
(`Server`, modelling the `requests` library: it maps the outgoing request to
the server's response) and, where the code parses JSON, a `Loads` oracle
modelling `json.loads` applied to the UTF-8 decoded body.  Python exceptions
are modelled with `Except PyError`.  Methods are state transformers
`GraylogApi → GraylogApi × α` so that frame properties (the code never
assigns to `self` outside `__init__`) are statable.
-/

/-- Model of a Python/JSON value as produced by `json.loads`. -/
inductive Json where
  | null : Json
  | bool (b : Bool) : Json
  | num (n : Int) : Json
  | str (s : String) : Json
  | arr (elems : List Json) : Json
  | obj (fields : List (String × Json)) : Json

/-- The Python exceptions that the code under verification can raise. -/
inductive PyError where
  | nameError (name : String)
  | keyError (key : String)
  | typeError
  | jsonDecodeError
deriving DecidableEq

/-- HTTP methods used by the client. -/
inductive Method where
  | GET | POST | PUT | DELETE
deriving DecidableEq

/-- A server response: `requests`' `response.status_code` and the UTF-8
decoded `response.content`. -/
structure HttpResponse where
  status_code : Nat
  content : String

/-- The outgoing request: everything the client hands to the `requests`
library for one call. `body` is the value passed via the `json=` keyword
(serialised to the request body), `none` when no body is sent. -/
structure Request where
  method : Method
  url : String
  headers : List (String × String)
  auth : String × String
  body : Option Json

/-- The network oracle standing for the `requests` library: a total map from
the outgoing request to the server's response. -/
def Server : Type := Request → HttpResponse

/-- Oracle for `json.loads` applied to the UTF-8 decoded body: either the
parsed value or a `json.JSONDecodeError`. -/
def Loads : Type := String → Except PyError Json

/-! ### Model of `urllib.parse.urljoin`

`urljoin` is a library function (not part of this repository), modelled here
from CPython's `urllib/parse.py`, restricted to the shapes the client uses:
the base is an absolute `scheme://netloc/path` URL without params, query or
fragment, and the second argument is a relative (or path-absolute) path
reference without scheme, authority, params, query or fragment.  The list
machinery (`splitOnChar`, `joinChar`) mirrors Python's `str.split('/')` and
`'/'.join`. -/

/-- `splitOnChar c l` is Python's `l.split(c)` on character lists. -/
def splitOnChar (c : Char) : List Char → List (List Char)
  | [] => [[]]
  | x :: xs =>
    if x = c then [] :: splitOnChar c xs
    else
      match splitOnChar c xs with
      | [] => [[x]]
      | h :: t => (x :: h) :: t

/-- `joinChar c ss` is Python's `c.join(ss)` on character lists. -/
def joinChar (c : Char) : List (List Char) → List Char
  | [] => []
  | [s] => s
  | s :: rest => s ++ c :: joinChar c rest

/-- Drop empty segments except the final one (helper for `filterInner`). -/
def keepLastFilter : List (List Char) → List (List Char)
  | [] => []
  | [a] => [a]
  | a :: rest => if a = [] then keepLastFilter rest else a :: keepLastFilter rest

/-- Python's `segments[1:-1] = filter(None, segments[1:-1])`: drop empty
segments, keeping the first and last elements unconditionally. -/
def filterInner : List (List Char) → List (List Char)
  | [] => []
  | [a] => [a]
  | a :: rest => a :: keepLastFilter rest

/-- The `..`/`.` resolution loop of `urljoin`: `..` pops the last resolved
segment (popping an empty stack is a no-op), `.` is skipped, anything else is
pushed. -/
def resolveDots (segs : List (List Char)) : List (List Char) :=
  segs.foldl
    (fun acc seg =>
      if seg = ['.', '.'] then acc.dropLast
      else if seg = ['.'] then acc
      else acc ++ [seg]) []

/-- The components of an absolute URL: `scheme://netloc` followed by the
path (which is empty or starts with `/`). -/
structure UrlParts where
  scheme : List Char
  netloc : List Char
  path : List Char
deriving DecidableEq

/-- Parse an absolute `scheme://netloc/path` URL (the restricted form of
`urllib.parse.urlparse` this model needs). -/
def parseAbsUrl (l : List Char) : Option UrlParts :=
  let sch := l.takeWhile (fun ch => ch ≠ ':')
  match l.dropWhile (fun ch => ch ≠ ':') with
  | ':' :: '/' :: '/' :: rest =>
    if sch = [] ∨ sch.contains '/' then none
    else some ⟨sch, rest.takeWhile (fun ch => ch ≠ '/'), rest.dropWhile (fun ch => ch ≠ '/')⟩
  | _ => none

/-- Character-list core of the `urljoin` model, following CPython's
`urllib.parse.urljoin` on the restricted domain described above. -/
def urljoinCore (base url : List Char) : List Char :=
  if url = [] then base
  else
    match parseAbsUrl base with
    | none => url
    | some ⟨sch, nl, bpath⟩ =>
      let segments :=
        if url.head? = some '/' then splitOnChar '/' url
        else
          let base_parts := splitOnChar '/' bpath
          let base_parts :=
            if base_parts.getLast? = some [] then base_parts else base_parts.dropLast
          filterInner (base_parts ++ splitOnChar '/' url)
      let resolved := resolveDots segments
      let resolved :=
        if segments.getLast? = some ['.'] ∨ segments.getLast? = some ['.', '.'] then
          resolved ++ [[]]
        else resolved
      let path := joinChar '/' resolved
      let path := if path = [] then ['/'] else path
      sch ++ ':' :: '/' :: '/' :: (nl ++ path)

/-- Model of `urllib.parse.urljoin` on strings. -/
def urljoin (base url : String) : String :=
  ⟨urljoinCore base.data url.data⟩

/-! ### Python subscription on JSON values -/

/-- Python `j[k]` for a decoded JSON value and a string key: field lookup on
a dict, `KeyError` when the key is absent, `TypeError` when the value is not
a dict. -/
def Json.index (j : Json) (k : String) : Except PyError Json :=
  match j with
  | .obj fields =>
    match fields.lookup k with
    | some v => .ok v
    | none => .error (.keyError k)
  | _ => .error .typeError

/-- Python `r[k]` where `r` is `None` or a JSON value: subscripting `None`
raises `TypeError`. -/
def subscriptOpt (r : Option Json) (k : String) : Except PyError Json :=
  match r with
  | none => .error .typeError
  | some j => j.index k

/-! ### The `GraylogApi` class -/

/-- The client state: the fields `__init__` assigns to `self`.  The logger
is represented by the level `setLevel` installs (`logging.WARNING = 30`). -/
structure GraylogApi where
  url : String
  api_token : String
  api_token_password : String
  headers : List (String × String)
  logger_level : Nat

/-- The default of `__init__`'s `url` parameter. -/
def default_url : String := "http://127.0.0.1:9000/api/"

/-- `__init__(self, api_token, url='http://127.0.0.1:9000/api/')`. -/
def GraylogApi.init (api_token : String) (url : String) : GraylogApi :=
  { url := url
    api_token := api_token
    api_token_password := "token"
    headers := [("Content-Type", "application/json"), ("X-Requested-By", "cli")]
    logger_level := 30 }

/-- The request each primitive hands to `requests`: URL resolved with
`urllib.parse.urljoin(self.url, operation)`, the fixed headers, and basic
auth `(self.api_token, self.api_token_password)`. -/
def GraylogApi.request (api : GraylogApi) (m : Method) (operation : String)
    (body : Option Json) : Request :=
  { method := m
    url := urljoin api.url operation
    headers := api.headers
    auth := (api.api_token, api.api_token_password)
    body := body }

/-- `get_request(self, operation)`: GET the resolved URL; on status 200
return `json.loads(response.content.decode('utf-8'))`, otherwise `None`. -/
def GraylogApi.get_request (server : Server) (loads : Loads) (api : GraylogApi)
    (operation : String) : GraylogApi × Except PyError (Option Json) :=
  let response := server (api.request Method.GET operation none)
  if response.status_code == 200 then
    (api, (loads response.content).map some)
  else
    (api, Except.ok none)

/-- `post_request(self)`: `pass`. -/
def GraylogApi.post_request (api : GraylogApi) : GraylogApi × Unit :=
  (api, ())

/-- `put_request(self, operation, data)`: PUT with `data` as JSON body,
return `response.status_code`. -/
def GraylogApi.put_request (server : Server) (api : GraylogApi)
    (operation : String) (data : Json) : GraylogApi × Nat :=
  let response := server (api.request Method.PUT operation (some data))
  (api, response.status_code)

/-- `del_request(self, operation)`: the DELETE is performed and bound to the
misspelled variable `reponse`; the `return response.status_code` on the next
line references the undefined name `response`, so the method raises
`NameError` on every call. -/
def GraylogApi.del_request (server : Server) (api : GraylogApi)
    (operation : String) : GraylogApi × Except PyError Nat :=
  let _reponse := server (api.request Method.DELETE operation none)
  (api, Except.error (PyError.nameError "response"))

/-- `get_streams(self)`: `return self.get_request('streams')['streams']`,
with no guard on the `None` returned for non-200 responses. -/
def GraylogApi.get_streams (server : Server) (loads : Loads)
    (api : GraylogApi) : GraylogApi × Except PyError Json :=
  let (api, r) := api.get_request server loads "streams"
  match r with
  | .error e => (api, .error e)
  | .ok v => (api, subscriptOpt v "streams")

/-- `delete_users_id(self, user_id)`: delete `users/id/{user_id}`; `False`
when the status code is 400, `True` otherwise.  An exception from
`del_request` propagates before the comparison happens. -/
def GraylogApi.delete_users_id (server : Server) (api : GraylogApi)
    (user_id : String) : GraylogApi × Except PyError Bool :=
  let (api, r) := api.del_request server ("users/id/" ++ user_id)
  match r with
  | .error e => (api, .error e)
  | .ok status_code => (api, .ok (if status_code == 400 then false else true))

/-- `get_users(self)`: `return self.get_request('users')`. -/
def GraylogApi.get_users (server : Server) (loads : Loads)
    (api : GraylogApi) : GraylogApi × Except PyError (Option Json) :=
  api.get_request server loads "users"

/-- `get_users_username(self, username)`:
`return self.get_request('users/{}'.format(username))`. -/
def GraylogApi.get_users_username (server : Server) (loads : Loads)
    (api : GraylogApi) (username : String) : GraylogApi × Except PyError (Option Json) :=
  api.get_request server loads ("users/" ++ username)

/-- `put_users_permissions(self, username, permissions)`: PUT
`{"permissions": permissions}` to `users/{username}/permissions`; `False`
when the status code is 400, `True` otherwise. -/
def GraylogApi.put_users_permissions (server : Server) (api : GraylogApi)
    (username : String) (permissions : List Json) : GraylogApi × Bool :=
  let json_data := Json.obj [("permissions", Json.arr permissions)]
  let (api, status_code) := api.put_request server ("users/" ++ username ++ "/permissions") json_data
  (api, if status_code == 400 then false else true)

/-! ### Helper lemmas about the list machinery -/

/-- `splitOnChar` never returns the empty list. -/
theorem splitOnChar_ne_nil (c : Char) (l : List Char) : splitOnChar c l ≠ [] := by
  cases l with
  | nil => simp [splitOnChar]
  | cons x xs =>
    simp only [splitOnChar]
    split
    · simp
    · split <;> simp

/-- An element of `getLast? = some a` is a member. -/
theorem mem_of_getLast_opt {α : Type} {l : List α} {a : α}
    (h : l.getLast? = some a) : a ∈ l := by
  induction l with
  | nil => simp at h
  | cons x xs ih =>
    cases xs with
    | nil => simp [List.getLast?] at h; simp [h]
    | cons y ys =>
      rw [List.getLast?_cons_cons] at h
      exact List.mem_cons_of_mem x (ih h)

/-- `joinChar` on a cons with nonempty tail. -/
theorem joinChar_cons (c : Char) (s : List Char) {r : List (List Char)}
    (h : r ≠ []) : joinChar c (s :: r) = s ++ c :: joinChar c r := by
  cases r with
  | nil => exact absurd rfl h
  | cons a t => rfl

/-- Joining the result of splitting recovers the original list. -/
theorem joinChar_splitOnChar (c : Char) (l : List Char) :
    joinChar c (splitOnChar c l) = l := by
  induction l with
  | nil => rfl
  | cons x xs ih =>
    simp only [splitOnChar]
    by_cases hx : x = c
    · rw [if_pos hx, joinChar_cons c [] (splitOnChar_ne_nil c xs), ih, hx]
      rfl
    · rw [if_neg hx]
      cases hs : splitOnChar c xs with
      | nil => exact absurd hs (splitOnChar_ne_nil c xs)
      | cons h t =>
        cases t with
        | nil =>
          rw [hs] at ih
          simpa [joinChar] using congrArg (x :: ·) ih
        | cons b t2 =>
          rw [hs] at ih
          simpa [joinChar] using congrArg (x :: ·) ih

/-- Splitting a list that does not contain the separator. -/
theorem splitOnChar_of_not_mem {c : Char} {l : List Char} (h : c ∉ l) :
    splitOnChar c l = [l] := by
  induction l with
  | nil => rfl
  | cons x xs ih =>
    simp only [splitOnChar]
    have hx : ¬ x = c := fun he => h (he ▸ List.mem_cons_self x xs)
    rw [if_neg hx, ih (fun hm => h (List.mem_cons_of_mem x hm))]

/-- Splitting at an explicit separator occurrence. -/
theorem splitOnChar_append_cons {c : Char} {s : List Char} (rest : List Char)
    (h : c ∉ s) : splitOnChar c (s ++ c :: rest) = s :: splitOnChar c rest := by
  induction s with
  | nil => simp [splitOnChar]
  | cons x xs ih =>
    have hx : ¬ x = c := fun he => h (he ▸ List.mem_cons_self x xs)
    have ihx := ih (fun hm => h (List.mem_cons_of_mem x hm))
    simp only [List.cons_append, splitOnChar, if_neg hx, List.append_eq, ihx]

/-- `joinChar` distributes over append of nonempty lists. -/
theorem joinChar_append (c : Char) {xs ys : List (List Char)}
    (hx : xs ≠ []) (hy : ys ≠ []) :
    joinChar c (xs ++ ys) = joinChar c xs ++ c :: joinChar c ys := by
  induction xs with
  | nil => exact absurd rfl hx
  | cons a t ih =>
    cases t with
    | nil =>
      rw [List.cons_append, List.nil_append, joinChar_cons c a hy]
      rfl
    | cons b t2 =>
      have ht : b :: t2 ≠ [] := by simp
      have happ : (b :: t2) ++ ys ≠ [] := by simp
      rw [List.cons_append, joinChar_cons c a happ, ih ht, joinChar_cons c a ht,
        List.append_assoc, List.cons_append]

/-- `keepLastFilter` is the identity on lists of nonempty segments. -/
theorem keepLastFilter_of_ne {l : List (List Char)} (h : ∀ s ∈ l, s ≠ []) :
    keepLastFilter l = l := by
  induction l with
  | nil => rfl
  | cons a t ih =>
    cases t with
    | nil => rfl
    | cons b t2 =>
      have ha : ¬ a = [] := h a (List.mem_cons_self a (b :: t2))
      have ih2 := ih (fun s hs => h s (List.mem_cons_of_mem a hs))
      simp only [keepLastFilter, if_neg ha, ih2]

/-- `keepLastFilter` over an append with nonempty right part filters the left
part completely. -/
theorem keepLastFilter_append (xs : List (List Char)) {ys : List (List Char)}
    (hy : ys ≠ []) :
    keepLastFilter (xs ++ ys) = xs.filter (fun s => s ≠ []) ++ keepLastFilter ys := by
  induction xs with
  | nil => simp
  | cons a t ih =>
    have htail : t ++ ys ≠ [] := by
      cases ys with
      | nil => exact absurd rfl hy
      | cons b t2 => simp
    cases htl : t ++ ys with
    | nil => exact absurd htl htail
    | cons b t2 =>
      by_cases ha : a = []
      · subst ha
        rw [List.cons_append, htl]
        simp only [keepLastFilter]
        rw [← htl, ih]
        simp
      · rw [List.cons_append, htl]
        simp only [keepLastFilter, if_neg ha]
        rw [← htl, ih]
        simp [List.filter_cons, ha]

/-- The dot-resolution loop is the identity when no segment is `.` or `..`. -/
theorem resolveDots_of_no_dots {l : List (List Char)}
    (h : ∀ s ∈ l, s ≠ ['.'] ∧ s ≠ ['.', '.']) : resolveDots l = l := by
  have main : ∀ (l : List (List Char)), (∀ s ∈ l, s ≠ ['.'] ∧ s ≠ ['.', '.']) →
      ∀ acc, l.foldl
        (fun acc seg =>
          if seg = ['.', '.'] then acc.dropLast
          else if seg = ['.'] then acc
          else acc ++ [seg]) acc = acc ++ l := by
    intro l
    induction l with
    | nil => intro _ acc; simp
    | cons a t ih =>
      intro hcl acc
      have ha := hcl a (List.mem_cons_self a t)
      simp only [List.foldl_cons, if_neg ha.2, if_neg ha.1]
      rw [ih (fun s hs => hcl s (List.mem_cons_of_mem a hs)) (acc ++ [a])]
      simp
  simpa using main l h []

/-- `filterInner` on a cons with nonempty tail. -/
theorem filterInner_cons (a : List Char) {rest : List (List Char)}
    (h : rest ≠ []) : filterInner (a :: rest) = a :: keepLastFilter rest := by
  cases rest with
  | nil => exact absurd rfl h
  | cons b t => rfl

/-- Soundness of `parseAbsUrl`: a successful parse decomposes the input. -/
theorem parseAbsUrl_sound {l : List Char} {u : UrlParts}
    (h : parseAbsUrl l = some u) :
    l = u.scheme ++ ':' :: '/' :: '/' :: (u.netloc ++ u.path) := by
  unfold parseAbsUrl at h
  cases hdw : l.dropWhile (fun ch => ch ≠ ':') with
  | nil => rw [hdw] at h; simp at h
  | cons x rest =>
    rw [hdw] at h
    by_cases hx : x = ':'
    · subst hx
      cases rest with
      | nil => simp at h
      | cons y rest2 =>
        by_cases hy : y = '/'
        · subst hy
          cases rest2 with
          | nil => simp at h
          | cons z rest3 =>
            by_cases hz : z = '/'
            · subst hz
              simp only at h
              split at h
              · exact absurd h (by simp)
              · have hu := Option.some.inj h
                have hsplit := List.takeWhile_append_dropWhile (fun ch => ch ≠ ':') l
                have hsplit2 := List.takeWhile_append_dropWhile (fun ch => ch ≠ '/') rest3
                rw [← hu]
                simp only
                rw [hsplit2, ← hdw, hsplit]
            · simp only [if_neg (by simpa using hz)] at h
              rcases h with h
              revert h
              split <;> simp_all
        · simp only [if_neg (by simpa using hy)] at h
          revert h
          split <;> simp_all
    · simp only [if_neg (by simpa using hx)] at h
      revert h
      split <;> simp_all

/-- A nonempty list has a last element. -/
theorem getLast_opt_of_ne_nil {α : Type} {l : List α} (h : l ≠ []) :
    ∃ a, l.getLast? = some a := by
  cases hl : l.getLast? with
  | none => exact absurd (List.getLast?_eq_none_iff.mp hl) h
  | some a => exact ⟨a, rfl⟩

/-- Resolution of a clean relative path against a base whose path component
ends in a slash: the path reference is appended to the base URL.  The
hypotheses say: the base parses as an absolute URL whose path splits into a
leading empty segment, clean middle segments and a trailing empty segment
(i.e. it starts and ends with `/`), and the reference is nonempty, does not
start with `/`, and has no empty, `.` or `..` segments. -/
theorem urljoin_dir_base_append (base p : String) (u : UrlParts)
    (mids : List (List Char))
    (hparse : parseAbsUrl base.data = some u)
    (hbp : splitOnChar '/' u.path = [] :: mids ++ [[]])
    (hmids : ∀ s ∈ mids, s ≠ [] ∧ s ≠ ['.'] ∧ s ≠ ['.', '.'])
    (hp : p ≠ "")
    (hhead : p.data.head? ≠ some '/')
    (hpsegs : ∀ s ∈ splitOnChar '/' p.data, s ≠ [] ∧ s ≠ ['.'] ∧ s ≠ ['.', '.']) :
    urljoin base p = base ++ p := by
  obtain ⟨sch, nl, bp⟩ := u
  have hpd : p.data ≠ [] := fun hd => hp (String.ext (by simp [hd]))
  have hpn : splitOnChar '/' p.data ≠ [] := splitOnChar_ne_nil '/' p.data
  have hmid : (mids ++ [[]]) ++ splitOnChar '/' p.data ≠ [] := by
    intro hcontra
    rcases List.append_eq_nil.mp hcontra with ⟨h1, _⟩
    exact absurd (List.append_eq_nil.mp h1).2 (by simp)
  have hfilter : (mids ++ [[]]).filter (fun s => s ≠ []) = mids := by
    rw [List.filter_append]
    have h1 : mids.filter (fun s => s ≠ []) = mids :=
      List.filter_eq_self.mpr (fun s hs => by simp [(hmids s hs).1])
    rw [h1]
    simp
  have hkeep : keepLastFilter ((mids ++ [[]]) ++ splitOnChar '/' p.data)
      = mids ++ splitOnChar '/' p.data := by
    rw [keepLastFilter_append _ hpn, hfilter,
      keepLastFilter_of_ne (fun s hs => (hpsegs s hs).1)]
  have hsegs : filterInner
      ((if (splitOnChar '/' bp).getLast? = some [] then splitOnChar '/' bp
        else (splitOnChar '/' bp).dropLast) ++ splitOnChar '/' p.data)
      = ([] : List Char) :: (mids ++ splitOnChar '/' p.data) := by
    rw [hbp, if_pos (List.getLast?_concat _), List.cons_append, List.cons_append,
      filterInner_cons _ hmid, hkeep]
  have hnodots : ∀ s ∈ ([] : List Char) :: (mids ++ splitOnChar '/' p.data),
      s ≠ ['.'] ∧ s ≠ ['.', '.'] := by
    intro s hs
    rcases List.mem_cons.mp hs with h | h
    · subst h; exact ⟨by simp, by simp⟩
    · rcases List.mem_append.mp h with h | h
      · exact ⟨(hmids s h).2.1, (hmids s h).2.2⟩
      · exact ⟨(hpsegs s h).2.1, (hpsegs s h).2.2⟩
  obtain ⟨plast, hplast⟩ := getLast_opt_of_ne_nil hpn
  have hplastmem := mem_of_getLast_opt hplast
  have hseglast : (([] : List Char) :: (mids ++ splitOnChar '/' p.data)).getLast?
      = some plast := by
    rw [← List.cons_append, List.getLast?_append, hplast]
    rfl
  have hjoinp : joinChar '/' (splitOnChar '/' p.data) = p.data :=
    joinChar_splitOnChar '/' p.data
  have hbpjoin : bp = joinChar '/' (([] : List Char) :: mids) ++ ['/'] := by
    have h1 := joinChar_splitOnChar '/' bp
    rw [hbp,
      joinChar_append '/' (by simp) (by simp : ([[]] : List (List Char)) ≠ [])] at h1
    simpa using h1.symm
  have hbase := parseAbsUrl_sound hparse
  simp only at hbase
  apply String.ext
  show urljoinCore base.data p.data = (base ++ p).data
  rw [urljoinCore, if_neg hpd, hparse]
  simp only
  rw [if_neg hhead, hsegs]
  rw [resolveDots_of_no_dots hnodots, hseglast]
  have hcond : ¬ (some plast = some (['.'] : List Char) ∨
      some plast = some (['.', '.'] : List Char)) := by
    rintro (hc | hc)
    · exact (hpsegs plast hplastmem).2.1 (Option.some.inj hc)
    · exact (hpsegs plast hplastmem).2.2 (Option.some.inj hc)
  rw [if_neg hcond]
  rw [← List.cons_append ([] : List Char) mids (splitOnChar '/' p.data),
    joinChar_append '/' (by simp) hpn, hjoinp]
  have hne : joinChar '/' (([] : List Char) :: mids) ++ '/' :: p.data ≠ [] := by simp
  rw [if_neg hne]
  rw [String.data_append, hbase, hbpjoin]
  simp

/-- Resolution of a path-absolute reference: a reference starting with a
single `/` (and free of `.`/`..` segments) replaces the base URL's path
component entirely, keeping only its `scheme://netloc` part.  The
`take 2 ≠ "//"` hypothesis keeps the statement inside the model's domain
(a `//`-reference would be a network-path reference). -/
theorem urljoin_abs_path_replaces (base p : String) (u : UrlParts)
    (hparse : parseAbsUrl base.data = some u)
    (hhead : p.data.head? = some '/')
    (_hnn : p.data.take 2 ≠ ['/', '/'])
    (hpsegs : ∀ s ∈ splitOnChar '/' p.data, s ≠ ['.'] ∧ s ≠ ['.', '.']) :
    urljoin base p = String.mk (u.scheme ++ ':' :: '/' :: '/' :: u.netloc) ++ p := by
  obtain ⟨sch, nl, bp⟩ := u
  have hpd : p.data ≠ [] := by
    intro hd
    rw [hd] at hhead
    simp at hhead
  have hpn : splitOnChar '/' p.data ≠ [] := splitOnChar_ne_nil '/' p.data
  obtain ⟨plast, hplast⟩ := getLast_opt_of_ne_nil hpn
  have hplastmem := mem_of_getLast_opt hplast
  have hcond : ¬ (some plast = some (['.'] : List Char) ∨
      some plast = some (['.', '.'] : List Char)) := by
    rintro (hc | hc)
    · exact (hpsegs plast hplastmem).1 (Option.some.inj hc)
    · exact (hpsegs plast hplastmem).2 (Option.some.inj hc)
  apply String.ext
  show urljoinCore base.data p.data = _
  rw [urljoinCore, if_neg hpd, hparse]
  simp only
  rw [if_pos hhead, resolveDots_of_no_dots hpsegs, hplast, if_neg hcond,
    joinChar_splitOnChar, if_neg hpd]
  rw [String.data_append]
  simp

/-! ### Concrete fixtures used by the witnesses -/

/-- A concrete client: token `"abc123"`, default base URL. -/
def api0 : GraylogApi := GraylogApi.init "abc123" default_url

/-- A server answering 200 with a body that `loads0` parses as a streams
listing. -/
def server200 : Server := fun _ => { status_code := 200, content := "streams200" }

/-- A server answering 400 to every request. -/
def server400 : Server := fun _ => { status_code := 400, content := "bad request" }

/-- A server answering 500 to every request. -/
def server500 : Server := fun _ => { status_code := 500, content := "server error" }

/-- A server answering 200 with a body that parses to an object without a
`"streams"` key. -/
def serverNoKey : Server := fun _ => { status_code := 200, content := "noStreamsKey" }

/-- A server answering 200 with a body that parses to a non-object. -/
def serverNotObj : Server := fun _ => { status_code := 200, content := "notAnObject" }

/-- The parsed streams listing used by the witnesses. -/
def streamsJson : Json :=
  Json.arr [Json.obj [("id", Json.str "1"), ("title", Json.str "test")]]

/-- A concrete `json.loads` oracle for the witnesses. -/
def loads0 : Loads := fun s =>
  if s = "streams200" then Except.ok (Json.obj [("streams", streamsJson)])
  else if s = "noStreamsKey" then Except.ok (Json.obj [("other", Json.null)])
  else if s = "notAnObject" then Except.ok (Json.arr [])
  else Except.error PyError.jsonDecodeError

/-! ### Claim theorems -/

/-- C1: `del_request`, for every operation path, fails at runtime on every
call: the DELETE response is bound to `reponse` while the return value
references the undefined name `response`, so the result is always a
`NameError` and never a status code. -/
theorem del_request_always_name_error :
    ∀ (server : Server) (api : GraylogApi) (operation : String),
      (GraylogApi.del_request server api operation).2
          = Except.error (PyError.nameError "response")
        ∧ ∀ n : Nat,
            (GraylogApi.del_request server api operation).2 ≠ Except.ok n := by
  intro server api operation
  exact ⟨rfl, fun n h => Except.noConfusion h⟩

/-- Witness for C1 at a concrete server, client and operation. -/
theorem del_request_always_name_error_witness :
    (GraylogApi.del_request server400 api0 "users/id/42").2
      = Except.error (PyError.nameError "response") :=
  (del_request_always_name_error server400 api0 "users/id/42").1

/-- C2: evaluating the code at the failing input.  Even against a server
that answers 400 to the DELETE on `users/id/42`, `delete_users_id("42")`
does not return `False`: the `NameError` raised inside `del_request`
propagates before the status comparison is reached. -/
theorem delete_users_id_name_error_on_400 :
    (GraylogApi.delete_users_id server400 api0 "42").2
      = Except.error (PyError.nameError "response") := rfl

/-- C3: `get_request` returns the body parsed as JSON exactly when the
response status is 200 (and then the result is the parsed value), and
returns the absence sentinel `None` — not an error — for every other
status. -/
theorem get_request_json_iff_200 :
    ∀ (server : Server) (loads : Loads) (api : GraylogApi) (operation : String),
      ((server (api.request Method.GET operation none)).status_code = 200 →
        (GraylogApi.get_request server loads api operation).2
          = (loads (server (api.request Method.GET operation none)).content).map some)
      ∧ ((server (api.request Method.GET operation none)).status_code ≠ 200 →
        (GraylogApi.get_request server loads api operation).2 = Except.ok none)
      ∧ (∀ j : Json,
          (GraylogApi.get_request server loads api operation).2 = Except.ok (some j) →
          (server (api.request Method.GET operation none)).status_code = 200
            ∧ loads (server (api.request Method.GET operation none)).content
                = Except.ok j) := by
  intro server loads api operation
  by_cases h : (server (api.request Method.GET operation none)).status_code = 200
  · refine ⟨fun _ => by simp [GraylogApi.get_request, h], fun hn => absurd h hn, ?_⟩
    intro j hj
    refine ⟨h, ?_⟩
    simp only [GraylogApi.get_request, h] at hj
    simp only [beq_self_eq_true, if_true] at hj
    cases hl : loads (server (api.request Method.GET operation none)).content with
    | error e => rw [hl] at hj; exact Except.noConfusion hj
    | ok v =>
      rw [hl] at hj
      simp only [Except.map] at hj
      rcases Except.ok.inj hj with h2
      rw [Option.some.inj h2]
  · refine ⟨fun hc => absurd hc h, fun _ => by simp [GraylogApi.get_request, h], ?_⟩
    intro j hj
    have hres : (GraylogApi.get_request server loads api operation).2 = Except.ok none := by
      simp [GraylogApi.get_request, h]
    rw [hres] at hj
    rcases Except.ok.inj hj with h2
    exact Option.noConfusion h2

/-- Witness for C3: a 200 response yields the parsed body, a 500 response
yields the absence sentinel. -/
theorem get_request_json_iff_200_witness :
    (GraylogApi.get_request server200 loads0 api0 "users").2
        = Except.ok (some (Json.obj [("streams", streamsJson)]))
      ∧ (GraylogApi.get_request server500 loads0 api0 "users").2 = Except.ok none := by
  constructor
  · have h := (get_request_json_iff_200 server200 loads0 api0 "users").1 rfl
    rw [h]
    rfl
  · exact (get_request_json_iff_200 server500 loads0 api0 "users").2.1 (by decide)

/-- C4: `get_streams` returns exactly the value of the `"streams"` field
when the GET on `streams` yields 200 with an object containing that field;
on any non-200 status it fails (the `None` result is subscripted without a
guard, a `TypeError`) instead of returning gracefully. -/
theorem get_streams_extracts_or_fails :
    ∀ (server : Server) (loads : Loads) (api : GraylogApi),
      ((server (api.request Method.GET "streams" none)).status_code = 200 →
        ∀ (fields : List (String × Json)) (v : Json),
          loads (server (api.request Method.GET "streams" none)).content
            = Except.ok (Json.obj fields) →
          fields.lookup "streams" = some v →
          (GraylogApi.get_streams server loads api).2 = Except.ok v)
      ∧ ((server (api.request Method.GET "streams" none)).status_code ≠ 200 →
        (GraylogApi.get_streams server loads api).2 = Except.error PyError.typeError) := by
  intro server loads api
  constructor
  · intro h fields v hloads hlookup
    simp [GraylogApi.get_streams, GraylogApi.get_request, h, hloads,
      Except.map, subscriptOpt, Json.index, hlookup]
  · intro h
    simp [GraylogApi.get_streams, GraylogApi.get_request, h, subscriptOpt]

/-- Witness for C4: the mock 200 body yields the streams array, the 500
response makes `get_streams` raise. -/
theorem get_streams_extracts_or_fails_witness :
    (GraylogApi.get_streams server200 loads0 api0).2 = Except.ok streamsJson
      ∧ (GraylogApi.get_streams server500 loads0 api0).2
          = Except.error PyError.typeError := by
  constructor
  · exact (get_streams_extracts_or_fails server200 loads0 api0).1 rfl
      [("streams", streamsJson)] streamsJson rfl rfl
  · exact (get_streams_extracts_or_fails server500 loads0 api0).2 (by decide)

/-- C5: `put_users_permissions` sends a PUT to `users/{username}/permissions`
whose JSON body is exactly `{"permissions": perms}`, and maps status 400 to
`False` and every other status to `True`. -/
theorem put_users_permissions_body_and_mapping :
    ∀ (server : Server) (api : GraylogApi) (username : String) (perms : List Json),
      (GraylogApi.put_users_permissions server api username perms).2
          = (if (server (api.request Method.PUT ("users/" ++ username ++ "/permissions")
                  (some (Json.obj [("permissions", Json.arr perms)])))).status_code == 400
             then false else true)
        ∧ (api.request Method.PUT ("users/" ++ username ++ "/permissions")
              (some (Json.obj [("permissions", Json.arr perms)]))).body
            = some (Json.obj [("permissions", Json.arr perms)])
        ∧ (api.request Method.PUT ("users/" ++ username ++ "/permissions")
              (some (Json.obj [("permissions", Json.arr perms)]))).method = Method.PUT
        ∧ (api.request Method.PUT ("users/" ++ username ++ "/permissions")
              (some (Json.obj [("permissions", Json.arr perms)]))).url
            = urljoin api.url ("users/" ++ username ++ "/permissions") :=
  fun _ _ _ _ => ⟨rfl, rfl, rfl, rfl⟩

/-- C6: `put_request` returns the server's raw numeric status code
unmodified for every status (in particular all of 100–599) and never
inspects the response body: its result only depends on the status code. -/
theorem put_request_returns_raw_status :
    ∀ (api : GraylogApi) (operation : String) (data : Json),
      (∀ server : Server,
        (GraylogApi.put_request server api operation data).2
          = (server (api.request Method.PUT operation (some data))).status_code)
      ∧ (∀ s : Nat, 100 ≤ s → s ≤ 599 → ∀ content : String,
          (GraylogApi.put_request
            (fun _ => { status_code := s, content := content }) api operation data).2 = s)
      ∧ (∀ server1 server2 : Server,
          (∀ r : Request, (server1 r).status_code = (server2 r).status_code) →
          (GraylogApi.put_request server1 api operation data).2
            = (GraylogApi.put_request server2 api operation data).2) := by
  intro api operation data
  exact ⟨fun _ => rfl, fun _ _ _ _ => rfl, fun _ _ h => h _⟩

/-- Witness for C6: a 503 response is returned verbatim, and two servers
agreeing on status codes but not on bodies give the same result. -/
theorem put_request_returns_raw_status_witness :
    (GraylogApi.put_request (fun _ => { status_code := 503, content := "retry later" })
        api0 "users" (Json.arr [])).2 = 503
      ∧ (GraylogApi.put_request server400 api0 "users" (Json.arr [])).2
          = (GraylogApi.put_request (fun _ => { status_code := 400, content := "other body" })
              api0 "users" (Json.arr [])).2 := by
  constructor
  · exact (put_request_returns_raw_status api0 "users" (Json.arr [])).2.1 503
      (by decide) (by decide) "retry later"
  · exact (put_request_returns_raw_status api0 "users" (Json.arr [])).2.2 server400
      (fun _ => { status_code := 400, content := "other body" }) (fun r => rfl)

/-- C7: every primitive resolves its request URL with
`urljoin(self.url, operation)`; joining follows standard relative-URL
resolution: a clean relative path is appended to a directory-style base URL,
a base not ending in `/` has its last segment replaced (not naive string
concatenation), and a path beginning with `/` replaces the base URL's path
component. -/
theorem resolved_url_follows_join_rules :
    (∀ (api : GraylogApi) (m : Method) (op : String) (b : Option Json),
        (api.request m op b).url = urljoin api.url op)
      ∧ (∀ (base p : String) (u : UrlParts) (mids : List (List Char)),
          parseAbsUrl base.data = some u →
          splitOnChar '/' u.path = ([] :: mids) ++ [[]] →
          (∀ s ∈ mids, s ≠ [] ∧ s ≠ ['.'] ∧ s ≠ ['.', '.']) →
          p ≠ "" →
          p.data.head? ≠ some '/' →
          (∀ s ∈ splitOnChar '/' p.data, s ≠ [] ∧ s ≠ ['.'] ∧ s ≠ ['.', '.']) →
          urljoin base p = base ++ p)
      ∧ urljoin "http://127.0.0.1:9000/api" "users" = "http://127.0.0.1:9000/users"
      ∧ (∀ (base p : String) (u : UrlParts),
          parseAbsUrl base.data = some u →
          p.data.head? = some '/' →
          p.data.take 2 ≠ ['/', '/'] →
          (∀ s ∈ splitOnChar '/' p.data, s ≠ ['.'] ∧ s ≠ ['.', '.']) →
          urljoin base p = String.mk (u.scheme ++ ':' :: '/' :: '/' :: u.netloc) ++ p) := by
  refine ⟨fun _ _ _ _ => rfl, ?_, by decide, ?_⟩
  · exact fun base p u mids h1 h2 h3 h4 h5 h6 =>
      urljoin_dir_base_append base p u mids h1 h2 h3 h4 h5 h6
  · exact fun base p u h1 h2 h3 h4 =>
      urljoin_abs_path_replaces base p u h1 h2 h3 h4

/-- Witness for C7: appending a relative path to the default (trailing
slash) base URL, and a path-absolute reference replacing the base path. -/
theorem resolved_url_follows_join_rules_witness :
    urljoin default_url "users" = default_url ++ "users"
      ∧ urljoin default_url "/users" = "http://127.0.0.1:9000" ++ "/users" := by
  constructor
  · exact resolved_url_follows_join_rules.2.1 default_url "users"
      ⟨"http".data, "127.0.0.1:9000".data, "/api/".data⟩ ["api".data]
      (by decide) (by decide) (by decide) (by decide) (by decide) (by decide)
  · exact resolved_url_follows_join_rules.2.2.2 default_url "/users"
      ⟨"http".data, "127.0.0.1:9000".data, "/api/".data⟩
      (by decide) (by decide) (by decide) (by decide)

/-- C8: the configuration fields are set once at construction (base URL,
token, fixed password `"token"`, the two fixed headers) and no method call
changes the object's state. -/
theorem client_config_immutable :
    (∀ token url_ : String,
        (GraylogApi.init token url_).url = url_
          ∧ (GraylogApi.init token url_).api_token = token
          ∧ (GraylogApi.init token url_).api_token_password = "token"
          ∧ (GraylogApi.init token url_).headers
              = [("Content-Type", "application/json"), ("X-Requested-By", "cli")])
      ∧ (∀ (server : Server) (loads : Loads) (api : GraylogApi)
          (op uname uid : String) (data : Json) (perms : List Json),
          (GraylogApi.get_request server loads api op).1 = api
            ∧ (GraylogApi.post_request api).1 = api
            ∧ (GraylogApi.put_request server api op data).1 = api
            ∧ (GraylogApi.del_request server api op).1 = api
            ∧ (GraylogApi.get_streams server loads api).1 = api
            ∧ (GraylogApi.delete_users_id server api uid).1 = api
            ∧ (GraylogApi.get_users server loads api).1 = api
            ∧ (GraylogApi.get_users_username server loads api uname).1 = api
            ∧ (GraylogApi.put_users_permissions server api uname perms).1 = api) := by
  constructor
  · exact fun _ _ => ⟨rfl, rfl, rfl, rfl⟩
  · intro server loads api op uname uid data perms
    have hget : ∀ o : String, (GraylogApi.get_request server loads api o).1 = api := by
      intro o
      by_cases h : (server (api.request Method.GET o none)).status_code == 200 <;>
        simp [GraylogApi.get_request, h]
    refine ⟨hget op, rfl, rfl, rfl, ?_, rfl, hget "users", hget ("users/" ++ uname), rfl⟩
    by_cases h : (server (api.request Method.GET "streams" none)).status_code == 200
    · cases hl : loads (server (api.request Method.GET "streams" none)).content with
      | error e =>
        simp [GraylogApi.get_streams, GraylogApi.get_request, h, hl, Except.map]
      | ok v =>
        simp [GraylogApi.get_streams, GraylogApi.get_request, h, hl, Except.map,
          subscriptOpt]
    · simp [GraylogApi.get_streams, GraylogApi.get_request, h]

/-- C9: on a 200 response whose parsed body is an object without a
`"streams"` key, `get_streams` raises `KeyError`; when the parsed body is
not an object at all it raises `TypeError` — the 200 path is just as
unguarded as the non-200 path. -/
theorem get_streams_unguarded_on_200 :
    ∀ (server : Server) (loads : Loads) (api : GraylogApi),
      ((server (api.request Method.GET "streams" none)).status_code = 200 →
        ∀ fields : List (String × Json),
          loads (server (api.request Method.GET "streams" none)).content
            = Except.ok (Json.obj fields) →
          fields.lookup "streams" = none →
          (GraylogApi.get_streams server loads api).2
            = Except.error (PyError.keyError "streams"))
      ∧ ((server (api.request Method.GET "streams" none)).status_code = 200 →
        ∀ j : Json,
          loads (server (api.request Method.GET "streams" none)).content
            = Except.ok j →
          (∀ fields : List (String × Json), j ≠ Json.obj fields) →
          (GraylogApi.get_streams server loads api).2
            = Except.error PyError.typeError) := by
  intro server loads api
  constructor
  · intro h fields hloads hlookup
    simp [GraylogApi.get_streams, GraylogApi.get_request, h, hloads, Except.map,
      subscriptOpt, Json.index, hlookup]
  · intro h j hloads hnotobj
    cases j with
    | obj fields => exact absurd rfl (hnotobj fields)
    | null =>
      simp [GraylogApi.get_streams, GraylogApi.get_request, h, hloads, Except.map,
        subscriptOpt, Json.index]
    | bool b =>
      simp [GraylogApi.get_streams, GraylogApi.get_request, h, hloads, Except.map,
        subscriptOpt, Json.index]
    | num n =>
      simp [GraylogApi.get_streams, GraylogApi.get_request, h, hloads, Except.map,
        subscriptOpt, Json.index]
    | str s =>
      simp [GraylogApi.get_streams, GraylogApi.get_request, h, hloads, Except.map,
        subscriptOpt, Json.index]
    | arr l =>
      simp [GraylogApi.get_streams, GraylogApi.get_request, h, hloads, Except.map,
        subscriptOpt, Json.index]

/-- Witness for C9: a 200 body parsing to `{"other": null}` raises
`KeyError`, a 200 body parsing to `[]` raises `TypeError`. -/
theorem get_streams_unguarded_on_200_witness :
    (GraylogApi.get_streams serverNoKey loads0 api0).2
        = Except.error (PyError.keyError "streams")
      ∧ (GraylogApi.get_streams serverNotObj loads0 api0).2
          = Except.error PyError.typeError := by
  constructor
  · exact (get_streams_unguarded_on_200 serverNoKey loads0 api0).1 rfl
      [("other", Json.null)] rfl rfl
  · exact (get_streams_unguarded_on_200 serverNotObj loads0 api0).2 rfl
      (Json.arr []) rfl (fun fields h => Json.noConfusion h)

/-- C10: `get_users_username(u)` is exactly `get_request("users/" + u)` and
`delete_users_id(i)` uses the path `"users/id/" + i`: the argument is
interpolated with no encoding or validation, so arguments containing `/`,
`..` or a leading `/` change which resource the resolved URL addresses. -/
theorem path_interpolation_unencoded :
    (∀ (server : Server) (loads : Loads) (api : GraylogApi) (u : String),
        GraylogApi.get_users_username server loads api u
          = GraylogApi.get_request server loads api ("users/" ++ u))
      ∧ (∀ (server : Server) (api : GraylogApi) (uid : String),
          (GraylogApi.delete_users_id server api uid).2
            = (GraylogApi.del_request server api ("users/id/" ++ uid)).2.map
                (fun s => if s == 400 then false else true))
      ∧ urljoin default_url ("users/" ++ "../streams") = urljoin default_url "streams"
      ∧ urljoin default_url ("users/" ++ "a/b")
          = "http://127.0.0.1:9000/api/users/a/b"
      ∧ urljoin default_url ("users/" ++ "/etc") = urljoin default_url "users/etc" := by
  exact ⟨fun _ _ _ _ => rfl, fun _ _ _ => rfl, by decide, by decide, by decide⟩
